import Mathlib

set_option maxRecDepth 100000

/-!
Verification development for the TulipaVisualizer time-resolution
aggregation engine (src-tauri).  The SQL pipeline assembled by
`build_resolution_query` in `services/query_builder.rs` is shallowly
embedded as list-processing functions over exact rational values
(the SQL engine computes over doubles; we model the intended exact
arithmetic, which is what the specification states up to rounding).

SQL modelling conventions used throughout:
* a table is a `List` of row structures; a CTE is a function between lists;
* `GROUP BY` is `groupByKey`, which enumerates the distinct keys in order
  of first appearance (SQL leaves the order unspecified) and pairs each
  key with its nonempty fiber (head and tail kept separate);
* a window `ROW_NUMBER() OVER (PARTITION BY p ORDER BY s)` difference pair,
  as used by the gaps-and-islands run-length compaction, is `rleAnnot`
  applied to the partition sorted by `s`;
* `UNION` is append plus `dedup`, `UNION ALL` is append, joins are nested
  flat-maps guarded by the join condition;
* SQL `NULL` values produced by `NULLIF` guards live in `Option ℚ`.
-/

namespace TulipaVis

/-! ## Generic list machinery shared by the pipeline stages -/

/-- SQL GROUP BY over an arbitrary key: distinct keys in order of first
appearance, each with its (nonempty) fiber split as head and tail.
The fuel argument makes the recursion structural; `groupByKey` always
supplies enough fuel. -/
def groupByKeyAux {α K : Type} [DecidableEq K] (key : α → K) :
    Nat → List α → List (K × α × List α)
  | _, [] => []
  | 0, _ :: _ => []
  | fuel + 1, a :: as =>
    (key a, a, as.filter (fun b => decide (key b = key a))) ::
      groupByKeyAux key fuel (as.filter (fun b => !(decide (key b = key a))))

/-- SQL GROUP BY: see `groupByKeyAux`. -/
def groupByKey {α K : Type} [DecidableEq K] (key : α → K) (l : List α) :
    List (K × α × List α) :=
  groupByKeyAux key l.length l

/-- Maximal runs of adjacent elements sharing a value (head of run kept
separate from the rest of the run).  Fuel-structural recursion. -/
def chunksByAux {α V : Type} [DecidableEq V] (val : α → V) :
    Nat → List α → List (α × List α)
  | _, [] => []
  | 0, _ :: _ => []
  | fuel + 1, a :: as =>
    (a, as.takeWhile (fun b => decide (val b = val a))) ::
      chunksByAux val fuel (as.dropWhile (fun b => decide (val b = val a)))

/-- Maximal runs of adjacent equal-valued elements: see `chunksByAux`. -/
def chunksBy {α V : Type} [DecidableEq V] (val : α → V) (l : List α) :
    List (α × List α) :=
  chunksByAux val l.length l

/-- The difference of the two window sequence numbers assigned to row `a`
when the rows `pre` precede it inside its partition:
`ROW_NUMBER() OVER (PARTITION BY p ORDER BY s)` is `pre.length + 1`, and
`ROW_NUMBER() OVER (PARTITION BY p, value ORDER BY s)` is the number of
rows among `pre ++ [a]` sharing the value of `a`. -/
def grpOf {α V : Type} [DecidableEq V] (val : α → V) (pre : List α) (a : α) : Int :=
  (pre.length + 1 : Int) - ((pre ++ [a]).countP (fun b => val b == val a) : Int)

/-- Annotates every row of a partition (already ordered by the window
ORDER BY column) with its `grpOf` sequence-number difference; `pre` is the
list of rows of the partition already processed. -/
def rleAnnotAux {α V : Type} [DecidableEq V] (val : α → V) (pre : List α) :
    List α → List (α × Int)
  | [] => []
  | a :: as => (a, grpOf val pre a) :: rleAnnotAux val (pre ++ [a]) as

/-- The `numbered` pattern of the SQL pipeline: each row of a partition
(ordered by the window ORDER BY column) paired with its `grp` value. -/
def rleAnnot {α V : Type} [DecidableEq V] (val : α → V) (l : List α) :
    List (α × Int) :=
  rleAnnotAux val [] l

/-- The `grouped` pattern of the SQL pipeline: GROUP BY (value, grp) over an
annotated partition, returning each group's value together with the plain
rows of its fiber. -/
def sqlRunPairs {α V : Type} [DecidableEq V] (val : α → V)
    (ann : List (α × Int)) : List (V × List α) :=
  (groupByKey (fun p => (val p.1, p.2)) ann).map
    (fun e => (e.1.1, e.2.1.1 :: e.2.2.map Prod.fst))

/-- SQL MIN over a projected column, with a default for the (never used)
empty-list case. -/
def minOf {α Q : Type} [LinearOrder Q] (dflt : Q) (f : α → Q) : List α → Q
  | [] => dflt
  | x :: xs => (xs.map f).foldl min (f x)

/-- SQL MAX over a projected column, with a default for the (never used)
empty-list case. -/
def maxOf {α Q : Type} [LinearOrder Q] (dflt : Q) (f : α → Q) : List α → Q
  | [] => dflt
  | x :: xs => (xs.map f).foldl max (f x)

/-- SQL SUM over a projected rational column (empty sum taken as 0, which
is what every use site wraps in COALESCE or never reaches). -/
def sumOf {α : Type} (f : α → ℚ) (l : List α) : ℚ :=
  (l.map f).sum

/-- SQL FLOOR of a rational: the greatest integer below, computed on the
reduced numerator and denominator. -/
def floorQ (q : ℚ) : Int :=
  Int.fdiv q.num (q.den : Int)

/-- SQL x / NULLIF(d, 0): NULL when the divisor is 0. -/
def nullifDiv (x d : ℚ) : Option ℚ :=
  if d = 0 then none else some (x / d)

/-- Integer range a..b inclusive, the model of generate_series(a, b). -/
def intSeries (a b : Int) : List Int :=
  (List.range (b + 1 - a).toNat).map (fun k => a + k)

/-! ## Lemmas about the run-length machinery -/

/-- Number of rows of `l` whose value differs from `v`. -/
def cntNe {α V : Type} [DecidableEq V] (val : α → V) (v : V) (l : List α) : Nat :=
  l.countP (fun b => !(val b == v))

theorem grpOf_eq_cntNe {α V : Type} [DecidableEq V] (val : α → V)
    (pre : List α) (a : α) :
    grpOf val pre a = (cntNe val (val a) pre : Int) := by
  unfold grpOf cntNe
  have h1 : (pre ++ [a]).countP (fun b => val b == val a) =
      pre.countP (fun b => val b == val a) + 1 := by
    simp [List.countP_append, List.countP_cons]
  have h2 : pre.length = pre.countP (fun b => val b == val a) +
      pre.countP (fun b => !(val b == val a)) := by
    simpa using List.length_eq_countP_add_countP (fun b => val b == val a) pre
  omega

theorem rleAnnotAux_append {α V : Type} [DecidableEq V] (val : α → V) :
    ∀ (xs ys pre : List α),
      rleAnnotAux val pre (xs ++ ys) =
        rleAnnotAux val pre xs ++ rleAnnotAux val (pre ++ xs) ys := by
  intro xs
  induction xs with
  | nil => intro ys pre; simp [rleAnnotAux]
  | cons x xt ih =>
    intro ys pre
    simp only [List.cons_append, rleAnnotAux, List.append_eq]
    rw [ih]
    simp [List.append_assoc]

theorem cntNe_append {α V : Type} [DecidableEq V] (val : α → V) (v : V)
    (l1 l2 : List α) :
    cntNe val v (l1 ++ l2) = cntNe val v l1 + cntNe val v l2 := by
  simp [cntNe, List.countP_append]

theorem cntNe_eq_zero {α V : Type} [DecidableEq V] (val : α → V) (v : V)
    (l : List α) :
    cntNe val v l = 0 ↔ ∀ x ∈ l, val x = v := by
  simp [cntNe, List.countP_eq_zero]

theorem rleAnnotAux_const {α V : Type} [DecidableEq V] (val : α → V) (v : V) :
    ∀ (xs pre : List α), (∀ b ∈ xs, val b = v) →
      rleAnnotAux val pre xs = xs.map (fun b => (b, (cntNe val v pre : Int))) := by
  intro xs
  induction xs with
  | nil => intro pre _; simp [rleAnnotAux]
  | cons x xt ih =>
    intro pre hall
    have hx : val x = v := hall x (by simp)
    have hrest : ∀ b ∈ xt, val b = v := fun b hb => hall b (by simp [hb])
    have hpre : cntNe val v (pre ++ [x]) = cntNe val v pre := by
      simp [cntNe_append, cntNe, List.countP_cons, hx]
    simp only [rleAnnotAux, List.map_cons, ih (pre ++ [x]) hrest, hpre,
      grpOf_eq_cntNe, hx]

theorem rleAnnotAux_mem {α V : Type} [DecidableEq V] (val : α → V) :
    ∀ (l pre : List α) (b : α) (g : Int), (b, g) ∈ rleAnnotAux val pre l →
      ∃ l1 l2, l = l1 ++ b :: l2 ∧ g = (cntNe val (val b) (pre ++ l1) : Int) := by
  intro l
  induction l with
  | nil => intro pre b g h; simp [rleAnnotAux] at h
  | cons x xt ih =>
    intro pre b g h
    simp only [rleAnnotAux, List.mem_cons] at h
    rcases h with h | h
    · simp only [Prod.mk.injEq] at h
      obtain ⟨hb, hg⟩ := h
      subst hb
      refine ⟨[], xt, by simp, ?_⟩
      simp [hg, grpOf_eq_cntNe]
    · obtain ⟨l1, l2, hsplit, hg⟩ := ih (pre ++ [x]) b g h
      exact ⟨x :: l1, l2, by simp [hsplit], by simpa [List.append_assoc] using hg⟩

theorem rleAnnotAux_map_fst {α V : Type} [DecidableEq V] (val : α → V) :
    ∀ (l pre : List α), (rleAnnotAux val pre l).map Prod.fst = l := by
  intro l
  induction l with
  | nil => intro pre; simp [rleAnnotAux]
  | cons x xt ih => intro pre; simp [rleAnnotAux, ih]

theorem rleAnnotAux_length {α V : Type} [DecidableEq V] (val : α → V) :
    ∀ (l pre : List α), (rleAnnotAux val pre l).length = l.length := by
  intro l
  induction l with
  | nil => intro pre; simp [rleAnnotAux]
  | cons x xt ih => intro pre; simp [rleAnnotAux, ih]

theorem groupByKeyAux_fuel {α K : Type} [DecidableEq K] (key : α → K) :
    ∀ (f1 : Nat), ∀ (f2 : Nat) (l : List α), l.length ≤ f1 → l.length ≤ f2 →
      groupByKeyAux key f1 l = groupByKeyAux key f2 l := by
  intro f1
  induction f1 with
  | zero =>
    intro f2 l h1 _
    have : l = [] := List.length_eq_zero.mp (Nat.le_zero.mp h1)
    subst this
    cases f2 <;> simp [groupByKeyAux]
  | succ g1 ih =>
    intro f2 l h1 h2
    cases l with
    | nil => cases f2 <;> simp [groupByKeyAux]
    | cons a as =>
      cases f2 with
      | zero => exact absurd h2 (by simp)
      | succ g2 =>
        simp only [groupByKeyAux]
        have hlen : (as.filter (fun b => !(decide (key b = key a)))).length ≤ as.length :=
          List.length_filter_le _ _
        have h1a : as.length ≤ g1 := by simpa using h1
        have h2a : as.length ≤ g2 := by simpa using h2
        rw [ih g2 _ (le_trans hlen h1a) (le_trans hlen h2a)]

theorem chunksByAux_fuel {α V : Type} [DecidableEq V] (val : α → V) :
    ∀ (f1 : Nat), ∀ (f2 : Nat) (l : List α), l.length ≤ f1 → l.length ≤ f2 →
      chunksByAux val f1 l = chunksByAux val f2 l := by
  intro f1
  induction f1 with
  | zero =>
    intro f2 l h1 _
    have : l = [] := List.length_eq_zero.mp (Nat.le_zero.mp h1)
    subst this
    cases f2 <;> simp [chunksByAux]
  | succ g1 ih =>
    intro f2 l h1 h2
    cases l with
    | nil => cases f2 <;> simp [chunksByAux]
    | cons a as =>
      cases f2 with
      | zero => exact absurd h2 (by simp)
      | succ g2 =>
        simp only [chunksByAux]
        have hlen : (as.dropWhile (fun b => decide (val b = val a))).length ≤ as.length :=
          (List.dropWhile_sublist _).length_le
        have h1a : as.length ≤ g1 := by simpa using h1
        have h2a : as.length ≤ g2 := by simpa using h2
        rw [ih g2 _ (le_trans hlen h1a) (le_trans hlen h2a)]

theorem dropWhile_head_not {α : Type} (p : α → Bool) :
    ∀ (l : List α) (b : α) (t : List α), l.dropWhile p = b :: t → p b = false := by
  intro l
  induction l with
  | nil => intro b t h; simp [List.dropWhile] at h
  | cons a as ih =>
    intro b t h
    by_cases ha : p a
    · rw [List.dropWhile_cons_of_pos ha] at h
      exact ih b t h
    · rw [List.dropWhile_cons_of_neg ha] at h
      obtain ⟨h1, _⟩ := List.cons.injEq .. ▸ h
      cases h
      simpa using ha

/-- One GROUP BY (value, grp) step over an annotated partition starting
with the run `a :: run` (all of value `val a`) followed by `rest` (whose
head, if any, has a different value): the first group is exactly that run,
and the remaining groups are those of `rest` annotated with the processed
prefix extended by the run. -/
theorem groupByKey_rle_cons {α V : Type} [DecidableEq V] (val : α → V)
    (pre : List α) (a : α) (run rest : List α)
    (hrunv : ∀ b ∈ run, val b = val a)
    (hhead : ∀ r0 t, rest = r0 :: t → ¬(val r0 = val a)) :
    (groupByKeyAux (fun p : α × Int => (val p.1, p.2))
        (rleAnnotAux val pre (a :: (run ++ rest))).length
        (rleAnnotAux val pre (a :: (run ++ rest)))).map
      (fun e => (e.1.1, e.2.1.1 :: e.2.2.map Prod.fst))
    = (val a, a :: run) ::
      (groupByKeyAux (fun p : α × Int => (val p.1, p.2))
          (rleAnnotAux val ((pre ++ [a]) ++ run) rest).length
          (rleAnnotAux val ((pre ++ [a]) ++ run) rest)).map
        (fun e => (e.1.1, e.2.1.1 :: e.2.2.map Prod.fst)) := by
  have hconst : rleAnnotAux val (pre ++ [a]) run =
      run.map (fun b => (b, (cntNe val (val a) (pre ++ [a]) : Int))) :=
    rleAnnotAux_const val (val a) run (pre ++ [a]) hrunv
  have hca : cntNe val (val a) (pre ++ [a]) = cntNe val (val a) pre := by
    simp [cntNe_append, cntNe, List.countP_cons]
  have hann : rleAnnotAux val pre (a :: (run ++ rest)) =
      (a, (cntNe val (val a) pre : Int)) ::
        (run.map (fun b => (b, (cntNe val (val a) pre : Int))) ++
          rleAnnotAux val ((pre ++ [a]) ++ run) rest) := by
    simp only [rleAnnotAux, rleAnnotAux_append, hconst, hca, grpOf_eq_cntNe]
  -- pointwise facts about the two halves of the tail
  have hrunkey : ∀ p ∈ run.map (fun b => (b, (cntNe val (val a) pre : Int))),
      decide ((val p.1, p.2) = ((val a : V), (cntNe val (val a) pre : Int))) = true := by
    intro p hp
    rcases List.mem_map.mp hp with ⟨b, hb, rfl⟩
    simp [hrunv b hb]
  have hrestkey : ∀ p ∈ rleAnnotAux val ((pre ++ [a]) ++ run) rest,
      decide ((val p.1, p.2) = ((val a : V), (cntNe val (val a) pre : Int))) = false := by
    intro p hp
    rcases p with ⟨b, g⟩
    obtain ⟨l1, l2, hsplit, hg⟩ := rleAnnotAux_mem val rest ((pre ++ [a]) ++ run) b g hp
    simp only [decide_eq_false_iff_not, ne_eq, Prod.mk.injEq, not_and]
    intro hv hgeq
    cases l1 with
    | nil =>
      exact hhead b l2 (by simpa using hsplit) hv
    | cons r0 l1t =>
      have hr0 : ¬(val r0 = val a) :=
        hhead r0 (l1t ++ b :: l2) (by simpa using hsplit)
      have hg2 : cntNe val (val b) (((pre ++ [a]) ++ run) ++ (r0 :: l1t)) =
          cntNe val (val a) pre := by
        have := hg ▸ hgeq
        exact_mod_cast this
      rw [hv] at hg2
      have e1 : cntNe val (val a) [a] = 0 := by simp [cntNe, List.countP_cons]
      have e2 : cntNe val (val a) run = 0 := (cntNe_eq_zero val (val a) run).mpr hrunv
      have e3 : cntNe val (val a) (r0 :: l1t) = cntNe val (val a) l1t + 1 := by
        simp [cntNe, List.countP_cons, hr0]
      rw [cntNe_append, cntNe_append, cntNe_append, e1, e2, e3] at hg2
      omega
  -- assemble
  rw [hann]
  simp only [List.length_cons, groupByKeyAux]
  have hfilter1 :
      (run.map (fun b => (b, (cntNe val (val a) pre : Int))) ++
        rleAnnotAux val ((pre ++ [a]) ++ run) rest).filter
        (fun b => decide ((val b.1, b.2) = ((val a : V), (cntNe val (val a) pre : Int)))) =
      run.map (fun b => (b, (cntNe val (val a) pre : Int))) := by
    rw [List.filter_append, List.filter_eq_self.mpr hrunkey,
      List.filter_eq_nil_iff.mpr (fun p hp => ne_true_of_eq_false (hrestkey p hp))]
    simp
  have hfilter2 :
      (run.map (fun b => (b, (cntNe val (val a) pre : Int))) ++
        rleAnnotAux val ((pre ++ [a]) ++ run) rest).filter
        (fun b => !(decide ((val b.1, b.2) = ((val a : V), (cntNe val (val a) pre : Int))))) =
      rleAnnotAux val ((pre ++ [a]) ++ run) rest := by
    rw [List.filter_append,
      List.filter_eq_nil_iff.mpr (fun p hp =>
        ne_true_of_eq_false (by rw [Bool.not_eq_false', hrunkey p hp])),
      List.filter_eq_self.mpr (fun p hp => by rw [Bool.not_eq_true', hrestkey p hp])]
    simp
  rw [hfilter1, hfilter2]
  rw [groupByKeyAux_fuel (fun p : α × Int => (val p.1, p.2)) _
    ((rleAnnotAux val ((pre ++ [a]) ++ run) rest).length) _
    (by simp) (le_refl _)]
  simp [List.map_map, Function.comp]
  exact List.map_id run

theorem sqlRunPairs_aux_eq_chunks {α V : Type} [DecidableEq V] (val : α → V) :
    ∀ (n : Nat) (l pre : List α), l.length ≤ n →
      (groupByKeyAux (fun p : α × Int => (val p.1, p.2))
          (rleAnnotAux val pre l).length (rleAnnotAux val pre l)).map
        (fun e => (e.1.1, e.2.1.1 :: e.2.2.map Prod.fst))
      = (chunksByAux val l.length l).map (fun c => (val c.1, c.1 :: c.2)) := by
  intro n
  induction n with
  | zero =>
    intro l pre h
    have : l = [] := List.length_eq_zero.mp (Nat.le_zero.mp h)
    subst this
    simp [rleAnnotAux, groupByKeyAux, chunksByAux]
  | succ m ih =>
    intro l pre h
    cases l with
    | nil => simp [rleAnnotAux, groupByKeyAux, chunksByAux]
    | cons a as =>
      have hsplit : as.takeWhile (fun b => decide (val b = val a)) ++
          as.dropWhile (fun b => decide (val b = val a)) = as :=
        List.takeWhile_append_dropWhile _ _
      have hrunv : ∀ b ∈ as.takeWhile (fun b => decide (val b = val a)),
          val b = val a := by
        intro b hb
        have hpb := List.mem_takeWhile_imp hb
        simpa using hpb
      have hhead : ∀ r0 t,
          as.dropWhile (fun b => decide (val b = val a)) = r0 :: t →
          ¬(val r0 = val a) :=
        fun r0 t ht => of_decide_eq_false (dropWhile_head_not _ as r0 t ht)
      have hlenrest : (as.dropWhile (fun b => decide (val b = val a))).length ≤ m :=
        le_trans ((List.dropWhile_sublist _).length_le) (by simpa using h)
      conv_lhs => rw [← hsplit]
      rw [groupByKey_rle_cons val pre a _ _ hrunv hhead]
      simp only [List.length_cons, chunksByAux, List.map_cons]
      rw [chunksByAux_fuel val as.length
        ((as.dropWhile (fun b => decide (val b = val a))).length) _
        ((List.dropWhile_sublist _).length_le) (le_refl _)]
      exact congrArg₂ List.cons rfl (ih _ _ hlenrest)

/-- The gaps-and-islands GROUP BY over an annotated partition produces
exactly the maximal runs of adjacent equal values, in order, each group
carrying its value and its member rows. -/
theorem sqlRunPairs_eq_chunks {α V : Type} [DecidableEq V] (val : α → V)
    (l : List α) :
    sqlRunPairs val (rleAnnot val l) =
      (chunksBy val l).map (fun c => (val c.1, c.1 :: c.2)) := by
  unfold sqlRunPairs rleAnnot groupByKey chunksBy
  exact sqlRunPairs_aux_eq_chunks val l.length l [] (le_refl _)

theorem chunksByAux_chain {α V : Type} [DecidableEq V] (val : α → V) :
    ∀ (n : Nat) (l : List α), l.length ≤ n →
      List.Chain' (fun c d => ¬(val d.1 = val c.1)) (chunksByAux val l.length l) := by
  intro n
  induction n with
  | zero =>
    intro l h
    have : l = [] := List.length_eq_zero.mp (Nat.le_zero.mp h)
    subst this
    simp [chunksByAux]
  | succ m ih =>
    intro l h
    cases l with
    | nil => simp [chunksByAux]
    | cons a as =>
      simp only [List.length_cons, chunksByAux]
      have hlenrest : (as.dropWhile (fun b => decide (val b = val a))).length ≤ m :=
        le_trans ((List.dropWhile_sublist _).length_le) (by simpa using h)
      rw [chunksByAux_fuel val as.length
        ((as.dropWhile (fun b => decide (val b = val a))).length) _
        ((List.dropWhile_sublist _).length_le) (le_refl _)]
      refine List.Chain'.cons' (ih _ hlenrest) ?_
      intro d hd
      cases hrest : as.dropWhile (fun b => decide (val b = val a)) with
      | nil => rw [hrest] at hd; simp [chunksByAux] at hd
      | cons r0 t =>
        rw [hrest] at hd
        have hd0 : d.1 = r0 := by
          cases hm : (as.dropWhile (fun b => decide (val b = val a))).length with
          | zero => rw [hrest] at hm; simp at hm
          | succ k =>
            rw [hrest] at hm
            rw [hm] at hd
            simp only [chunksByAux, List.head?_cons, Option.mem_def,
              Option.some.injEq] at hd
            rw [← hd]

        rw [hd0]
        exact of_decide_eq_false (dropWhile_head_not _ as r0 t hrest)

/-- Adjacent groups of the gaps-and-islands grouping carry different
values. -/
theorem chunksBy_chain {α V : Type} [DecidableEq V] (val : α → V) (l : List α) :
    List.Chain' (fun c d => ¬(val d.1 = val c.1)) (chunksBy val l) :=
  chunksByAux_chain val l.length l (le_refl _)

theorem groupByKeyAux_entry_mem {α K : Type} [DecidableEq K] (key : α → K) :
    ∀ (fuel : Nat) (l : List α) (e : K × α × List α),
      e ∈ groupByKeyAux key fuel l → e.2.1 ∈ l ∧ key e.2.1 = e.1 := by
  intro fuel
  induction fuel with
  | zero => intro l e he; cases l <;> simp [groupByKeyAux] at he
  | succ m ih =>
    intro l e he
    cases l with
    | nil => simp [groupByKeyAux] at he
    | cons a as =>
      simp only [groupByKeyAux, List.mem_cons] at he
      rcases he with he | he
      · subst he; exact ⟨by simp, rfl⟩
      · obtain ⟨h1, h2⟩ := ih _ e he
        exact ⟨List.mem_cons_of_mem a (List.mem_of_mem_filter h1), h2⟩

theorem groupByKeyAux_flatMap_filter {α K β : Type} [DecidableEq K]
    (key : α → K) (mk : K × α × List α → List β) (keyB : β → K)
    (hmk : ∀ E r, r ∈ mk E → keyB r = E.1) :
    ∀ (fuel : Nat) (l : List α) (t : K),
      ((groupByKeyAux key fuel l).flatMap mk).filter
        (fun r => decide (keyB r = t)) =
      (((groupByKeyAux key fuel l).find? (fun E => decide (E.1 = t))).map mk).getD [] := by
  intro fuel
  induction fuel with
  | zero => intro l t; cases l <;> simp [groupByKeyAux]
  | succ m ih =>
    intro l t
    cases l with
    | nil => simp [groupByKeyAux]
    | cons a as =>
      simp only [groupByKeyAux, List.flatMap_cons, List.filter_append, List.find?]
      by_cases ht : key a = t
      · have hpass : ∀ r ∈ mk (key a, a, as.filter (fun b => decide (key b = key a))),
            decide (keyB r = t) = true := by
          intro r hr
          have := hmk _ r hr
          simp [this, ht]
        have hrest : ((groupByKeyAux key m
            (as.filter (fun b => !(decide (key b = key a))))).flatMap mk).filter
            (fun r => decide (keyB r = t)) = [] := by
          rw [List.filter_eq_nil_iff]
          intro r hr
          rcases List.mem_flatMap.mp hr with ⟨E, hE, hrE⟩
          obtain ⟨hm1, hm2⟩ := groupByKeyAux_entry_mem key m _ E hE
          have hne : ¬(key E.2.1 = key a) := by
            have := List.of_mem_filter hm1
            simpa using this
          have : keyB r = E.1 := hmk E r hrE
          simp only [this, ← hm2, decide_eq_true_eq]
          rw [← ht]
          exact fun hc => hne hc
        rw [List.filter_eq_self.mpr hpass, hrest, List.append_nil]
        simp [ht]
      · have hfail : ∀ r ∈ mk (key a, a, as.filter (fun b => decide (key b = key a))),
            decide (keyB r = t) = false := by
          intro r hr
          have := hmk _ r hr
          simp [this, ht]
        rw [List.filter_eq_nil_iff.mpr (fun r hr => ne_true_of_eq_false (hfail r hr)),
          List.nil_append]
        have : (decide ((key a, a, as.filter (fun b => decide (key b = key a))).1 = t)) = false := by
          simp [ht]
        rw [this]
        exact ih _ t

theorem groupByKeyAux_fiber_filter {α K : Type} [DecidableEq K] (key : α → K) :
    ∀ (fuel : Nat) (l : List α), l.length ≤ fuel →
      ∀ e ∈ groupByKeyAux key fuel l,
        e.2.1 :: e.2.2 = l.filter (fun b => decide (key b = e.1)) := by
  intro fuel
  induction fuel with
  | zero =>
    intro l h e he
    have : l = [] := List.length_eq_zero.mp (Nat.le_zero.mp h)
    subst this
    simp [groupByKeyAux] at he
  | succ m ih =>
    intro l h e he
    cases l with
    | nil => simp [groupByKeyAux] at he
    | cons a as =>
      simp only [groupByKeyAux, List.mem_cons] at he
      rcases he with he | he
      · subst he
        simp [List.filter_cons]
      · obtain ⟨hm1, hm2⟩ := groupByKeyAux_entry_mem key m _ e he
        have hne : ¬(key e.2.1 = key a) := by
          have := List.of_mem_filter hm1
          simpa using this
        have hlen : (as.filter (fun b => !(decide (key b = key a)))).length ≤ m := by
          have := List.length_filter_le (fun b => !(decide (key b = key a))) as
          have h2 : as.length ≤ m := by simpa using h
          omega
        have hrec := ih _ hlen e he
        rw [hrec, List.filter_cons]
        have hcond : (decide (key a = e.1)) = false := by
          rw [← hm2]
          simp
          exact fun hc => hne hc.symm
        simp only [hcond, if_neg]
        rw [List.filter_filter]
        apply List.filter_congr
        intro b _
        cases hd : decide (key b = e.1) with
        | false => simp
        | true =>
          have hb : key b = e.1 := of_decide_eq_true hd
          have : ¬(key b = key a) := by
            rw [hb, ← hm2]
            exact hne
          simp [this]

theorem groupByKeyAux_count_key {α K : Type} [DecidableEq K] (key : α → K) :
    ∀ (fuel : Nat) (l : List α), l.length ≤ fuel →
      ∀ x ∈ l,
        ((groupByKeyAux key fuel l).filter (fun E => decide (E.1 = key x))).length = 1 := by
  intro fuel
  induction fuel with
  | zero =>
    intro l h x hx
    have : l = [] := List.length_eq_zero.mp (Nat.le_zero.mp h)
    subst this
    simp at hx
  | succ m ih =>
    intro l h x hx
    cases l with
    | nil => simp at hx
    | cons a as =>
      simp only [groupByKeyAux]
      by_cases hk : key x = key a
      · have hrest : ((groupByKeyAux key m
            (as.filter (fun b => !(decide (key b = key a))))).filter
            (fun E => decide (E.1 = key a))) = [] := by
          rw [List.filter_eq_nil_iff]
          intro E hE
          obtain ⟨hm1, hm2⟩ := groupByKeyAux_entry_mem key m _ E hE
          have hne : ¬(key E.2.1 = key a) := by
            simpa using List.of_mem_filter hm1
          simp only [decide_eq_true_eq]
          rw [← hm2]
          exact hne
        rw [List.filter_cons]
        simp only [hk, decide_True, if_true]
        rw [hrest]
        simp
      · have hxas : x ∈ as := by
          rcases List.mem_cons.mp hx with rfl | h2
          · exact absurd rfl hk
          · exact h2
        have hxf : x ∈ as.filter (fun b => !(decide (key b = key a))) :=
          List.mem_filter.mpr ⟨hxas, by simp [hk]⟩
        have hlen : (as.filter (fun b => !(decide (key b = key a)))).length ≤ m := by
          have := List.length_filter_le (fun b => !(decide (key b = key a))) as
          have h2 : as.length ≤ m := by simpa using h
          omega
        have hrec := ih _ hlen x hxf
        rw [List.filter_cons]
        have hcond : (decide (((key a, a,
            as.filter (fun b => decide (key b = key a))) : K × α × List α).1 = key x)) = false := by
          simp only [decide_eq_false_iff_not]
          exact fun hc => hk hc.symm
        rw [hcond]
        simpa using hrec

theorem foldl_max_init_le {Q : Type} [LinearOrder Q] :
    ∀ (l : List Q) (b : Q), b ≤ l.foldl max b := by
  intro l
  induction l with
  | nil => intro b; exact le_refl b
  | cons c t ih =>
    intro b
    exact le_trans (le_max_left b c) (ih (max b c))

theorem foldl_max_mem_le {Q : Type} [LinearOrder Q] :
    ∀ (l : List Q) (b x : Q), x ∈ l → x ≤ l.foldl max b := by
  intro l
  induction l with
  | nil => intro b x hx; simp at hx
  | cons c t ih =>
    intro b x hx
    rcases List.mem_cons.mp hx with rfl | hx
    · exact le_trans (le_max_right b x) (foldl_max_init_le t (max b x))
    · exact ih (max b c) x hx

theorem foldl_max_cases {Q : Type} [LinearOrder Q] :
    ∀ (l : List Q) (b : Q), l.foldl max b = b ∨ l.foldl max b ∈ l := by
  intro l
  induction l with
  | nil => intro b; exact Or.inl rfl
  | cons c t ih =>
    intro b
    rcases ih (max b c) with h | h
    · rcases max_choice b c with hm | hm
      · exact Or.inl (by rw [List.foldl_cons, h, hm])
      · exact Or.inr (by rw [List.foldl_cons, h, hm]; simp)
    · exact Or.inr (by simp only [List.foldl_cons]; right; exact h)

theorem le_maxOf {α Q : Type} [LinearOrder Q] (dflt : Q) (f : α → Q) :
    ∀ (l : List α) (x : α), x ∈ l → f x ≤ maxOf dflt f l := by
  intro l x hx
  cases l with
  | nil => simp at hx
  | cons y ys =>
    rcases List.mem_cons.mp hx with rfl | hx
    · exact foldl_max_init_le (ys.map f) (f x)
    · exact foldl_max_mem_le (ys.map f) (f y) (f x) (List.mem_map_of_mem f hx)

theorem maxOf_mem {α Q : Type} [LinearOrder Q] (dflt : Q) (f : α → Q) :
    ∀ (l : List α), l ≠ [] → ∃ x ∈ l, maxOf dflt f l = f x := by
  intro l hl
  cases l with
  | nil => exact absurd rfl hl
  | cons y ys =>
    rcases foldl_max_cases (ys.map f) (f y) with h | h
    · exact ⟨y, by simp, h⟩
    · rcases List.mem_map.mp h with ⟨x, hx, hfx⟩
      exact ⟨x, List.mem_cons_of_mem y hx, hfx.symm⟩

/-- Row of the `{source_table}` feeding the pipeline.  The group columns
(`{group_cols}`, e.g. `asset`) are modelled as a single string key. -/
structure SrcRow where
  group : String
  year : Nat
  rep_period : Nat
  time_block_start : Nat
  time_block_end : Nat
  value : ℚ
deriving DecidableEq

/-- Row of `rep_periods_mapping`. -/
structure MappingRow where
  year : Nat
  rep_period : Nat
  period : Nat
  weight : ℚ
deriving DecidableEq

/-- Row of `rep_periods_data`. -/
structure RepDataRow where
  year : Nat
  rep_period : Nat
  resolution : ℚ
  num_timesteps : Nat
deriving DecidableEq

/-- Row of the `grouped` CTE (compacted time blocks, native units). -/
structure GroupedRow where
  group : String
  year : Nat
  rep_period : Nat
  value : ℚ
  time_block_start : Nat
  time_block_end : Nat
deriving DecidableEq

/-- Row of the `periods` CTE: a native-unit interval of one period. -/
structure PeriodRow where
  year : Nat
  period : Nat
  start_hour : Nat
  end_hour : Nat
deriving DecidableEq

/-- Row of the `raw`, `final_rep_periods` and `final_clustered` CTEs:
per-period hour-scaled piecewise-constant series. -/
structure RawRow where
  group : String
  milestone_year : Nat
  period : Nat
  start_hour : ℚ
  end_hour : ℚ
  y_axis : ℚ
deriving DecidableEq

/-- Row of the `period_durations` CTE. -/
structure PDRow where
  group : String
  milestone_year : Nat
  period : Nat
  period_duration : ℚ
deriving DecidableEq

/-- Row of the `final_with_offsets` CTE. -/
structure OffsetRow where
  group : String
  milestone_year : Nat
  period : Nat
  start_hour : ℚ
  end_hour : ℚ
  y_axis : ℚ
  offset_val : ℚ
deriving DecidableEq

/-- Row of the `s_table` CTE (global hour timeline). -/
structure STableRow where
  group : String
  milestone_year : Nat
  global_start : ℚ
  global_end : ℚ
  y_axis : ℚ
deriving DecidableEq

/-- Row of the `exploded` CTE: `s_table` plus the first and last target-bin
indices touched by the segment. -/
structure ExplodedRow where
  group : String
  milestone_year : Nat
  global_start : ℚ
  global_end : ℚ
  y_axis : ℚ
  first_period : Int
  last_period : Int
deriving DecidableEq

/-- Row of the `resolution_periods` CTE: one (segment, bin) incidence with
the clip bounds exactly as the SQL computes them. -/
structure ResPeriodRow where
  group : String
  milestone_year : Nat
  period : Int
  period_start : ℚ
  period_end : ℚ
  y_axis : ℚ
deriving DecidableEq

/-- Row of the `weighted` CTE. -/
structure WeightedRow where
  group : String
  milestone_year : Nat
  period : Int
  weighted_price : ℚ
  duration : ℚ
deriving DecidableEq

/-- Row of the `period_avg` CTE.  Both value columns are nullable because
of the NULLIF(duration, 0) guards. -/
structure PeriodAvgRow where
  group : String
  milestone_year : Nat
  global_start_val : Int
  global_end_val : Int
  weighted_price : Option ℚ
  y_axis : Option ℚ
deriving DecidableEq

/-- Row of the `merged` CTE, the final output shape of the pipeline.  Note
that the SQL selects only these five columns: `weighted_price` is dropped
and the bounds are the MIN/MAX of the bin indices of `period_avg`. -/
structure FinalRow where
  group : String
  milestone_year : Nat
  global_start : Int
  global_end : Int
  y_axis : Option ℚ
deriving DecidableEq

/-! ## REP_PERIOD_RESOLUTION_SQL -/

/-- Partition key of the `numbered` window functions. -/
def srcPartKey (r : SrcRow) : String × Nat × Nat :=
  (r.group, r.year, r.rep_period)

/-- The `numbered` and `grouped` CTEs restricted to one window partition:
rows are ordered by `time_block_start`, annotated with the difference of
the two ROW_NUMBERs, filtered by `WHERE year = qyear`, then grouped by
(value, grp) with MIN start and MAX end.  `k` is the partition key. -/
def groupedOfPartition (qyear : Nat) (k : String × Nat × Nat)
    (rows : List SrcRow) : List GroupedRow :=
  (sqlRunPairs (fun r => r.value)
      ((rleAnnot (fun r => r.value)
          (List.insertionSort (fun a b => a.time_block_start ≤ b.time_block_start) rows)).filter
        (fun p => p.1.year == qyear))).map
    (fun c => ⟨k.1, k.2.1, k.2.2, c.1,
      minOf 0 (fun r => r.time_block_start) c.2,
      maxOf 0 (fun r => r.time_block_end) c.2⟩)

/-- The `numbered` and `grouped` CTEs: run-length compaction of adjacent
equal-valued blocks within each (group, year, rep_period) partition,
keeping only the requested year. -/
def grouped (src : List SrcRow) (qyear : Nat) : List GroupedRow :=
  (groupByKey srcPartKey src).flatMap
    (fun e => groupedOfPartition qyear e.1 (e.2.1 :: e.2.2))

/-- The `all_blocks` CTE: every compacted block end mapped through
`rep_periods_mapping`, plus a 0 boundary per matched period; UNION
removes duplicates. -/
def all_blocks (g : List GroupedRow) (mapping : List MappingRow) :
    List (Nat × Nat × Nat) :=
  ((g.flatMap (fun gr =>
      (mapping.filter (fun m : MappingRow => m.year == gr.year && m.rep_period == gr.rep_period)).map
        (fun m : MappingRow => (gr.year, m.period, gr.time_block_end))))
    ++
    (g.flatMap (fun gr =>
      (mapping.filter (fun m : MappingRow => m.year == gr.year && m.rep_period == gr.rep_period)).map
        (fun m : MappingRow => (gr.year, m.period, 0))))).dedup

/-- The `ranked_blocks` and `periods` CTEs: per (year, period), sort the
distinct boundaries ascending and pair each with its successor. -/
def periodsCTE (ab : List (Nat × Nat × Nat)) : List PeriodRow :=
  (groupByKey (fun t => (t.1, t.2.1)) ab).flatMap
    (fun e =>
      let ends := List.insertionSort (fun a b => a ≤ b)
        ((e.2.1 :: e.2.2).map (fun t => t.2.2))
      (ends.zip ends.tail).map (fun p => ⟨e.1.1, e.1.2, p.1, p.2⟩))

/-- The join underlying the `raw` CTE: grouped blocks x mapping x periods
x rep_periods_data, with the containment test
`p.start_hour + 1 >= g.time_block_start AND p.end_hour <= g.time_block_end`. -/
def rawJoin (g : List GroupedRow) (mapping : List MappingRow)
    (ps : List PeriodRow) (data : List RepDataRow) :
    List (GroupedRow × MappingRow × PeriodRow × RepDataRow) :=
  g.flatMap (fun gr =>
    mapping.flatMap (fun m =>
      if gr.year = m.year ∧ gr.rep_period = m.rep_period then
        ps.flatMap (fun p =>
          if p.year = m.year ∧ p.period = m.period ∧
              p.start_hour + 1 ≥ gr.time_block_start ∧
              p.end_hour ≤ gr.time_block_end then
            data.flatMap (fun d =>
              if d.year = m.year ∧ d.rep_period = m.rep_period then
                [(gr, m, p, d)]
              else [])
          else [])
      else []))

/-- The `raw` CTE: weighted sums over the shared intervals, bounds scaled
to hours by the rep period resolution. -/
def raw (g : List GroupedRow) (mapping : List MappingRow)
    (ps : List PeriodRow) (data : List RepDataRow) : List RawRow :=
  (groupByKey
      (fun j => (j.1.group, j.1.year, j.2.2.1.period, j.2.2.2.resolution,
                 j.2.2.1.start_hour, j.2.2.1.end_hour))
      (rawJoin g mapping ps data)).map
    (fun e =>
      ⟨e.1.1, e.1.2.1, e.1.2.2.1,
        (e.1.2.2.2.2.1 : ℚ) * e.1.2.2.2.1,
        (e.1.2.2.2.2.2 : ℚ) * e.1.2.2.2.1,
        sumOf (fun j => j.1.value * j.2.1.weight / j.2.2.2.resolution)
          (e.2.1 :: e.2.2)⟩)

/-- The `numbered_blocks` and `final_rep_periods` CTEs: run-length
compaction of adjacent equal `y_axis` values within each
(group, milestone_year, period) partition ordered by `start_hour`. -/
def final_rep_periods (rw : List RawRow) : List RawRow :=
  (groupByKey (fun r => (r.group, r.milestone_year, r.period)) rw).flatMap
    (fun e =>
      (sqlRunPairs (fun r => r.y_axis)
          (rleAnnot (fun r => r.y_axis)
            (List.insertionSort (fun a b => a.start_hour ≤ b.start_hour)
              (e.2.1 :: e.2.2)))).map
        (fun c =>
          ⟨e.1.1, e.1.2.1, e.1.2.2,
            minOf 0 (fun r => r.start_hour) c.2,
            maxOf 0 (fun r => r.end_hour) c.2, c.1⟩))

/-- The whole of REP_PERIOD_RESOLUTION_SQL: from source rows to
`final_rep_periods`. -/
def rep_period_resolution (src : List SrcRow) (qyear : Nat)
    (mapping : List MappingRow) (data : List RepDataRow) : List RawRow :=
  let g := grouped src qyear
  final_rep_periods (raw g mapping (periodsCTE (all_blocks g mapping)) data)

/-! ## BOTH_RESOLUTIONS_SQL -/

/-- The `final` CTE of BOTH_RESOLUTIONS_SQL: inner join on
(group, milestone_year, period) with summed values, then the two
pass-through branches, each filtered by `{group_cols} NOT IN
(SELECT {group_cols} FROM ...)` - note the membership test is on the
group column alone. -/
def both_resolutions (fr fc : List RawRow) : List RawRow :=
  (fr.flatMap (fun r =>
    fc.flatMap (fun c =>
      if r.group = c.group ∧ r.milestone_year = c.milestone_year ∧
          r.period = c.period then
        [⟨c.group, c.milestone_year, r.period, r.start_hour, r.end_hour,
          r.y_axis + c.y_axis⟩]
      else [])))
  ++ fr.filter (fun r => !(fc.any (fun c => c.group == r.group)))
  ++ fc.filter (fun c => !(fr.any (fun r => r.group == c.group)))

/-! ## LAST_PART_SQL -/

/-- The `period_durations` CTE: MAX(end_hour) per
(group, milestone_year, period). -/
def period_durations (fl : List RawRow) : List PDRow :=
  (groupByKey (fun r => (r.group, r.milestone_year, r.period)) fl).map
    (fun e =>
      ⟨e.1.1, e.1.2.1, e.1.2.2, maxOf 0 (fun r => r.end_hour) (e.2.1 :: e.2.2)⟩)

/-- The `final_with_offsets` CTE: the correlated COALESCE(SUM(...), 0)
subquery over `period_durations` with strictly smaller period. -/
def final_with_offsets (fl : List RawRow) : List OffsetRow :=
  fl.map (fun f =>
    ⟨f.group, f.milestone_year, f.period, f.start_hour, f.end_hour, f.y_axis,
      sumOf (fun d => d.period_duration)
        ((period_durations fl).filter
          (fun d => d.group == f.group && d.milestone_year == f.milestone_year &&
            decide (d.period < f.period)))⟩)

/-- The `s_table` CTE: local hour bounds shifted by the period offset.
(The CTE's ORDER BY is dropped here: every later stage re-establishes its
own order through its window ORDER BY.) -/
def s_table (fl : List RawRow) : List STableRow :=
  (final_with_offsets fl).map (fun f =>
    ⟨f.group, f.milestone_year, f.offset_val + f.start_hour,
      f.offset_val + f.end_hour, f.y_axis⟩)

/-- The `exploded` CTE: FLOOR(global_start / W) and
FLOOR((global_end - 1) / W). -/
def exploded (st : List STableRow) (W : ℚ) : List ExplodedRow :=
  st.map (fun s =>
    ⟨s.group, s.milestone_year, s.global_start, s.global_end, s.y_axis,
      floorQ (s.global_start / W), floorQ ((s.global_end - 1) / W)⟩)

/-- The `resolution_periods` CTE: one row per bin index in
first_period..last_period, with clip bounds
GREATEST(global_start, period) and LEAST(global_end, period + 1)
exactly as the SQL writes them (the bin index is not scaled by W). -/
def resolution_periods (ex : List ExplodedRow) : List ResPeriodRow :=
  ex.flatMap (fun e =>
    (intSeries e.first_period e.last_period).map (fun p =>
      ⟨e.group, e.milestone_year, p,
        max e.global_start (p : ℚ), min e.global_end ((p : ℚ) + 1), e.y_axis⟩))

/-- The `weighted` CTE: per (group, milestone_year, period) bin, the sum of
duration-weighted values and the total duration. -/
def weighted (rp : List ResPeriodRow) : List WeightedRow :=
  (groupByKey (fun r => (r.group, r.milestone_year, r.period)) rp).map
    (fun e =>
      ⟨e.1.1, e.1.2.1, e.1.2.2,
        sumOf (fun r => (r.period_end - r.period_start) * r.y_axis)
          (e.2.1 :: e.2.2),
        sumOf (fun r => r.period_end - r.period_start) (e.2.1 :: e.2.2)⟩)

/-- The `period_avg` CTE: bin bounds `period` and `period + 1`, the
agg-dependent `weighted_price` and the always-average `y_axis`, both
guarded by NULLIF(duration, 0). -/
def period_avg (agg : String) (w : List WeightedRow) : List PeriodAvgRow :=
  w.map (fun r =>
    ⟨r.group, r.milestone_year, r.period, r.period + 1,
      (if agg = "avg" then nullifDiv r.weighted_price r.duration
       else some r.weighted_price),
      nullifDiv r.weighted_price r.duration⟩)

/-- The `numbered_1` and `merged` CTEs restricted to one
(group, milestone_year) partition: rows ordered by `global_start_val`,
run-length compacted on `y_axis` with MIN/MAX bin bounds. -/
def mergedOfPartition (k : String × Nat) (h : PeriodAvgRow)
    (t : List PeriodAvgRow) : List FinalRow :=
  (sqlRunPairs (fun r => r.y_axis)
      (rleAnnot (fun r => r.y_axis)
        (List.insertionSort (fun a b => a.global_start_val ≤ b.global_start_val)
          (h :: t)))).map
    (fun c =>
      ⟨k.1, k.2, minOf 0 (fun r => r.global_start_val) c.2,
        maxOf 0 (fun r => r.global_end_val) c.2, c.1⟩)

/-- The `numbered_1` and `merged` CTEs plus the final SELECT.  The final
ORDER BY (group, milestone_year, global_start) is realised as: partitions
in first-appearance order, rows within a partition in run order, which is
ascending in `global_start`; only the relative order of different
(group, year) partitions may differ from the SQL sort, and no claim
concerns it. -/
def merged (pav : List PeriodAvgRow) : List FinalRow :=
  (groupByKey (fun r => (r.group, r.milestone_year)) pav).flatMap
    (fun e => mergedOfPartition e.1 e.2.1 e.2.2)

/-- The whole of LAST_PART_SQL applied to a `{final}` table. -/
def last_part (fl : List RawRow) (W : ℚ) (agg : String) : List FinalRow :=
  merged (period_avg agg (weighted (resolution_periods (exploded (s_table fl) W))))

/-- The full query built by `build_resolution_query` with
`clustered = false`: REP_PERIOD_RESOLUTION_SQL then LAST_PART_SQL. -/
def build_resolution_query (src : List SrcRow) (qyear : Nat)
    (mapping : List MappingRow) (data : List RepDataRow) (W : ℚ)
    (agg : String) : List FinalRow :=
  last_part (rep_period_resolution src qyear mapping data) W agg

/-! ## Concrete inputs used by evaluations and counterexamples -/

/-- The spec's concrete test input: entity A, year 2030, rep 1 with weight
2 and resolution 1 over 3 timesteps, blocks (1,2,10) and (3,3,20). -/
def scnSrc : List SrcRow := [⟨"A", 2030, 1, 1, 2, 10⟩, ⟨"A", 2030, 1, 3, 3, 20⟩]

/-- rep_periods_mapping for the concrete test input. -/
def scnMap : List MappingRow := [⟨2030, 1, 1, 2⟩]

/-- rep_periods_data for the concrete test input. -/
def scnData : List RepDataRow := [⟨2030, 1, 1, 3⟩]

/-- C1: the spec's end-to-end scenario expects, at bin width 3, one output
segment (A, 2030, 0, 3) valued 80 in sum mode and 80/3 in avg mode.  The
pipeline as written instead returns (A, 2030, 0, 1, NULL) in both modes:
`resolution_periods` clips each segment against the raw bin index instead
of the bin's hour range, so the two clipped durations are 1 and -1, the
bin's total duration is 0 and the NULLIF guard turns the value into NULL;
moreover `merged` reports bin-index bounds (0,1) rather than hours (0,3)
and does not select the agg-dependent `weighted_price` column at all. -/
theorem C1_pipeline_eval_at_spec_test :
    build_resolution_query scnSrc 2030 scnMap scnData 3 "sum" =
      [⟨"A", 2030, 0, 1, none⟩] ∧
    build_resolution_query scnSrc 2030 scnMap scnData 3 "avg" =
      [⟨"A", 2030, 0, 1, none⟩] :=
  ⟨by with_unfolding_all rfl, by with_unfolding_all rfl⟩

/-- The global segments of the spec scenario, as `s_table` produces them:
[0,2) valued 20 and [2,3) valued 40 for (A, 2030). -/
def c2Segs : List STableRow := [⟨"A", 2030, 0, 2, 20⟩, ⟨"A", 2030, 2, 3, 40⟩]

/-- C2: the resampler is claimed to clip each segment to the bin's hour
range [bin*W, (bin+1)*W) and aggregate clipped durations.  The code
instead clips to [bin, bin+1] in unscaled bin indices:
with W = 3 the segment [0,2) gets clip bounds (0,1) (duration 1 instead
of 2) and the segment [2,3) gets clip bounds (2,1) (duration -1 instead
of 1), so bin 0 totals weighted_price -20 with duration 0 and both
aggregation modes yield a NULL-poisoned value instead of sum 80 and
average 80/3. -/
theorem C2_resampler_eval_at_failing_input :
    resolution_periods (exploded c2Segs 3) =
      [⟨"A", 2030, 0, 0, 1, 20⟩, ⟨"A", 2030, 0, 2, 1, 40⟩] ∧
    weighted (resolution_periods (exploded c2Segs 3)) =
      [⟨"A", 2030, 0, -20, 0⟩] ∧
    period_avg "sum" (weighted (resolution_periods (exploded c2Segs 3))) =
      [⟨"A", 2030, 0, 1, some (-20), none⟩] ∧
    period_avg "avg" (weighted (resolution_periods (exploded c2Segs 3))) =
      [⟨"A", 2030, 0, 1, none, none⟩] :=
  ⟨by with_unfolding_all rfl, by with_unfolding_all rfl,
   by with_unfolding_all rfl, by with_unfolding_all rfl⟩

/-- C9: for every bin of the `weighted` CTE whose total clipped duration
is zero, the `period_avg` stage produces the corresponding row with a NULL
`y_axis` (and, in avg mode, a NULL `weighted_price`): the division is
guarded by NULLIF(duration, 0), so a zero divisor is never divided by. -/
theorem C9_avg_division_guarded (agg : String) (w : List WeightedRow)
    (r : WeightedRow) (hr : r ∈ w) (hd : r.duration = 0) :
    ∃ p ∈ period_avg agg w,
      p.group = r.group ∧ p.milestone_year = r.milestone_year ∧
      p.global_start_val = r.period ∧ p.y_axis = none ∧
      (agg = "avg" → p.weighted_price = none) := by
  refine ⟨⟨r.group, r.milestone_year, r.period, r.period + 1,
    (if agg = "avg" then nullifDiv r.weighted_price r.duration
     else some r.weighted_price),
    nullifDiv r.weighted_price r.duration⟩, ?_, rfl, rfl, rfl, ?_, ?_⟩
  · exact List.mem_map.mpr ⟨r, hr, rfl⟩
  · simp [nullifDiv, hd]
  · intro ha
    simp [ha, nullifDiv, hd]

/-- C9 witness: the zero-duration bin of the spec scenario at bin width 3
gets a NULL value. -/
theorem C9_avg_division_guarded_witness :
    ∃ p ∈ period_avg "avg" [⟨"A", 2030, 0, -20, 0⟩],
      p.group = "A" ∧ p.milestone_year = 2030 ∧
      p.global_start_val = 0 ∧ p.y_axis = none ∧
      ("avg" = "avg" → p.weighted_price = none) :=
  C9_avg_division_guarded "avg" [⟨"A", 2030, 0, -20, 0⟩]
    ⟨"A", 2030, 0, -20, 0⟩ (by simp) rfl

/-- C3 counterexample: the representative-period series holds keys
(A, 2030, period 1) and (A, 2030, period 2); the clustered series holds
only (A, 2030, period 1).  The combined output contains just the summed
period-1 row: the period-2 key, present in exactly one series, is dropped
because the pass-through branches test membership on the group column
alone and group A does occur in the clustered series. -/
theorem C3_one_sided_key_dropped :
    (⟨"A", 2030, 2, 0, 1, 99⟩ : RawRow) ∈
      ([⟨"A", 2030, 1, 0, 2, 10⟩, ⟨"A", 2030, 2, 0, 1, 99⟩] : List RawRow) ∧
    both_resolutions [⟨"A", 2030, 1, 0, 2, 10⟩, ⟨"A", 2030, 2, 0, 1, 99⟩]
        [⟨"A", 2030, 1, 0, 2, 20⟩] = [⟨"A", 2030, 1, 0, 2, 30⟩] ∧
    ∀ out ∈ both_resolutions [⟨"A", 2030, 1, 0, 2, 10⟩, ⟨"A", 2030, 2, 0, 1, 99⟩]
        [⟨"A", 2030, 1, 0, 2, 20⟩],
      ¬(out.group = "A" ∧ out.milestone_year = 2030 ∧ out.period = 2) := by
  refine ⟨by with_unfolding_all decide, by with_unfolding_all rfl, ?_⟩
  with_unfolding_all decide

/-- C3: keys present in both series are output with summed values, and a
row of either series whose group key does not occur at all in the other
series passes through unchanged.  (As amended: a one-sided
(group, year, period) key whose group does occur on the other side is
dropped, as the counterexample shows, because the NOT IN pass-through
filters compare group columns only.) -/
theorem C3_combine_amended (fr fc : List RawRow) :
    (∀ r ∈ fr, ∀ c ∈ fc,
      r.group = c.group → r.milestone_year = c.milestone_year →
      r.period = c.period →
      (⟨c.group, c.milestone_year, r.period, r.start_hour, r.end_hour,
        r.y_axis + c.y_axis⟩ : RawRow) ∈ both_resolutions fr fc) ∧
    (∀ r ∈ fr, (∀ c ∈ fc, c.group ≠ r.group) → r ∈ both_resolutions fr fc) ∧
    (∀ c ∈ fc, (∀ r ∈ fr, r.group ≠ c.group) → c ∈ both_resolutions fr fc) := by
  refine ⟨?_, ?_, ?_⟩
  · intro r hr c hc h1 h2 h3
    refine List.mem_append.mpr (Or.inl (List.mem_append.mpr (Or.inl ?_)))
    refine List.mem_flatMap.mpr ⟨r, hr, List.mem_flatMap.mpr ⟨c, hc, ?_⟩⟩
    simp [h1, h2, h3]
  · intro r hr hno
    refine List.mem_append.mpr (Or.inl (List.mem_append.mpr (Or.inr ?_)))
    refine List.mem_filter.mpr ⟨hr, ?_⟩
    simp only [Bool.not_eq_eq_eq_not, Bool.not_true, List.any_eq_false]
    intro c hc
    simp [hno c hc]
  · intro c hc hno
    refine List.mem_append.mpr (Or.inr ?_)
    refine List.mem_filter.mpr ⟨hc, ?_⟩
    simp only [Bool.not_eq_eq_eq_not, Bool.not_true, List.any_eq_false]
    intro r hr
    simp [hno r hr]

/-- C3 witness: a representative-period row whose group is absent from the
clustered series passes through the combine unchanged. -/
theorem C3_combine_amended_witness :
    (⟨"B", 2030, 1, 0, 2, 7⟩ : RawRow) ∈
      both_resolutions [⟨"B", 2030, 1, 0, 2, 7⟩] [⟨"C", 2030, 1, 0, 2, 9⟩] :=
  (C3_combine_amended [⟨"B", 2030, 1, 0, 2, 7⟩] [⟨"C", 2030, 1, 0, 2, 9⟩]).2.1
    ⟨"B", 2030, 1, 0, 2, 7⟩ (by simp) (by intro c hc; fin_cases hc; decide)

/-- Source rows for the C6 counterexample: one block covering timesteps
1..2 of a rep period whose rep_periods_data declares resolution 1 and 3
timesteps. -/
def c6Src : List SrcRow := [⟨"A", 2030, 1, 1, 2, 10⟩]

/-- C6 counterexample: the period's duration used by the offset
computation is MAX(end_hour) = 2 (the hour-scaled largest compacted block
end), not resolution_hours * timestep_count = 1 * 3 = 3, because
`period_durations` never consults `rep_periods_data`. -/
theorem C6_duration_not_resolution_times_timesteps :
    period_durations (rep_period_resolution c6Src 2030 scnMap scnData) =
      [⟨"A", 2030, 1, 2⟩] ∧
    ∀ d ∈ scnData, ¬((2 : ℚ) = d.resolution * d.num_timesteps) := by
  refine ⟨by with_unfolding_all rfl, ?_⟩
  with_unfolding_all decide

/-! ## duckdb_conn.rs: the connection registry and the row-mapping query -/

/-- An open database handle; the path it was opened on is all that the
model needs to track. -/
structure Conn where
  path : String
deriving DecidableEq

/-- ConnectionHandler.fetch_connection: rejects paths not ending in
".duckdb"; reuses a pooled connection; otherwise requires the file to
exist, opens a connection and inserts it into the pool.  `fs` says which
paths exist on disk; the returned list is the pool after the call.
(Connection.open failures are not modelled; no claim depends on them.) -/
def fetch_connection {T : Type} (fs : String → Bool)
    (pool : List (String × Conn)) (db_path : String)
    (with_conn : Conn → Except String T) :
    Except String T × List (String × Conn) :=
  if !(db_path.endsWith ".duckdb") then
    (Except.error "Database path must end with .duckdb", pool)
  else
    match pool.lookup db_path with
    | some c => (with_conn c, pool)
    | none =>
      if !(fs db_path) then
        (Except.error ("Error<file not found> connecting to: " ++ db_path), pool)
      else
        (with_conn ⟨db_path⟩, pool ++ [(db_path, ⟨db_path⟩)])

/-- ConnectionHandler.run_query_rb: prepare and execute inside
fetch_connection; the query action is abstracted by `execQ`. -/
def run_query_rb {R : Type} (fs : String → Bool)
    (pool : List (String × Conn)) (db_path : String)
    (execQ : Conn → Except String R) :
    Except String R × List (String × Conn) :=
  fetch_connection fs pool db_path (fun conn =>
    match execQ conn with
    | Except.error e => Except.error ("error executing query: " ++ e)
    | Except.ok r => Except.ok r)

/-- ConnectionHandler.run_query_row: prepare, then query_map yielding one
mapper Result per row, then collect through filter_map(Result::ok) -
rows whose mapping failed are discarded. -/
def run_query_row {T : Type} (fs : String → Bool)
    (pool : List (String × Conn)) (db_path : String)
    (prepare : Conn → Except String Unit)
    (query_map : Conn → Except String (List (Except String T))) :
    Except String (List T) × List (String × Conn) :=
  fetch_connection fs pool db_path (fun conn =>
    match prepare conn with
    | Except.error e => Except.error ("error parsing query: " ++ e)
    | Except.ok _ =>
      match query_map conn with
      | Except.error e => Except.error ("error executing query: " ++ e)
      | Except.ok rows => Except.ok (rows.filterMap Except.toOption))

/-- C8 counterexample: a query whose result set has three rows, the second
of which fails the row mapper, still returns success - with only the two
successfully mapped rows.  The claim that a failed row mapping can never
be silently omitted while the call succeeds is false. -/
theorem C8_failed_row_silently_dropped :
    run_query_row (fun _ => true) [("db.duckdb", ⟨"db.duckdb"⟩)] "db.duckdb"
        (fun _ => Except.ok Unit.unit)
        (fun _ => Except.ok [Except.ok 1, Except.error "bad row", Except.ok 2]) =
      (Except.ok [1, 2], [("db.duckdb", ⟨"db.duckdb"⟩)]) := by
  with_unfolding_all rfl

/-- C8: what run_query_row actually guarantees once the connection is
fetched and preparation succeeds: a query_map failure propagates as an
error, and otherwise the call succeeds with exactly the successfully
mapped rows, in order - every row whose mapping succeeds appears, and
every returned row comes from a successful mapping; rows whose mapping
fails are silently omitted. -/
theorem C8_run_query_row_amended {T : Type} (fs : String → Bool)
    (pool : List (String × Conn)) (db_path : String)
    (rows : List (Except String T)) (c : Conn)
    (hend : db_path.endsWith ".duckdb" = true)
    (hpool : pool.lookup db_path = some c) :
    (run_query_row fs pool db_path (fun _ => Except.ok Unit.unit)
        (fun _ => Except.ok rows)).1 = Except.ok (rows.filterMap Except.toOption) ∧
    (∀ t : T, Except.ok t ∈ rows → t ∈ rows.filterMap Except.toOption) ∧
    (∀ t : T, t ∈ rows.filterMap Except.toOption → Except.ok t ∈ rows) ∧
    (∀ e : String, (run_query_row fs pool db_path (fun _ => Except.ok Unit.unit)
        (fun _ => (Except.error e : Except String (List (Except String T))))).1 =
      Except.error ("error executing query: " ++ e)) := by
  refine ⟨?_, ?_, ?_, ?_⟩
  · simp [run_query_row, fetch_connection, hend, hpool]
  · intro t ht
    exact List.mem_filterMap.mpr ⟨Except.ok t, ht, rfl⟩
  · intro t ht
    rcases List.mem_filterMap.mp ht with ⟨r, hr, hro⟩
    cases r with
    | error e => simp [Except.toOption] at hro
    | ok v => simp [Except.toOption] at hro; simpa [hro] using hr
  · intro e
    simp [run_query_row, fetch_connection, hend, hpool]

/-- C8 witness: the amended behaviour at the counterexample input. -/
theorem C8_run_query_row_amended_witness :
    (run_query_row (fun _ => true) [("db.duckdb", ⟨"db.duckdb"⟩)] "db.duckdb"
        (fun _ => Except.ok Unit.unit)
        (fun _ => Except.ok [Except.ok 1, Except.error "bad row", Except.ok 2])).1 =
      Except.ok ([Except.ok 1, Except.error "bad row",
        Except.ok (2 : Nat)].filterMap Except.toOption) :=
  (C8_run_query_row_amended (fun _ => true) [("db.duckdb", ⟨"db.duckdb"⟩)]
    "db.duckdb" [Except.ok 1, Except.error "bad row", Except.ok 2]
    ⟨"db.duckdb"⟩ (by with_unfolding_all rfl) (by with_unfolding_all rfl)).1

/-- C10: for a db_path that does not end in ".duckdb", or one with no
pooled handle whose file does not exist, both run_query_rb and
run_query_row return an error and leave the connection registry exactly
as it was: nothing is opened, inserted or removed. -/
theorem C10_path_validation_atomic {R T : Type} (fs : String → Bool)
    (pool : List (String × Conn)) (db_path : String)
    (execQ : Conn → Except String R)
    (prepare : Conn → Except String Unit)
    (query_map : Conn → Except String (List (Except String T)))
    (h : db_path.endsWith ".duckdb" = false ∨
      (pool.lookup db_path = none ∧ fs db_path = false)) :
    (∃ e, (run_query_rb fs pool db_path execQ).1 = Except.error e) ∧
    (run_query_rb fs pool db_path execQ).2 = pool ∧
    (∃ e, (run_query_row fs pool db_path prepare query_map).1 = Except.error e) ∧
    (run_query_row fs pool db_path prepare query_map).2 = pool := by
  have main : ∀ {T2 : Type} (wc : Conn → Except String T2),
      (∃ e, (fetch_connection fs pool db_path wc).1 = Except.error e) ∧
      (fetch_connection fs pool db_path wc).2 = pool := by
    intro T2 wc
    rcases h with h | ⟨h1, h2⟩
    · exact ⟨by simp [fetch_connection, h], by simp [fetch_connection, h]⟩
    · cases hE : db_path.endsWith ".duckdb" with
      | false =>
        exact ⟨by simp [fetch_connection, hE], by simp [fetch_connection, hE]⟩
      | true =>
        exact ⟨by simp [fetch_connection, hE, h1, h2],
          by simp [fetch_connection, hE, h1, h2]⟩
  exact ⟨(main _).1, (main _).2, (main _).1, (main _).2⟩

/-- C10 witness: a ".txt" path is rejected and leaves a nonempty registry
untouched. -/
theorem C10_path_validation_atomic_witness :
    (∃ e, (run_query_rb (fun _ => true) [("a.duckdb", ⟨"a.duckdb"⟩)] "data.txt"
      (fun _ => Except.ok (0 : Nat))).1 = Except.error e) ∧
    (run_query_rb (fun _ => true) [("a.duckdb", ⟨"a.duckdb"⟩)] "data.txt"
      (fun _ => Except.ok (0 : Nat))).2 = [("a.duckdb", ⟨"a.duckdb"⟩)] ∧
    (∃ e, (run_query_row (fun _ => true) [("a.duckdb", ⟨"a.duckdb"⟩)] "data.txt"
      (fun _ => Except.ok Unit.unit)
      (fun _ => Except.ok ([] : List (Except String Nat)))).1 = Except.error e) ∧
    (run_query_row (fun _ => true) [("a.duckdb", ⟨"a.duckdb"⟩)] "data.txt"
      (fun _ => Except.ok Unit.unit)
      (fun _ => Except.ok ([] : List (Except String Nat)))).2 =
      [("a.duckdb", ⟨"a.duckdb"⟩)] :=
  C10_path_validation_atomic (fun _ => true) [("a.duckdb", ⟨"a.duckdb"⟩)]
    "data.txt" (fun _ => Except.ok (0 : Nat)) (fun _ => Except.ok Unit.unit)
    (fun _ => Except.ok ([] : List (Except String Nat)))
    (Or.inl (by with_unfolding_all rfl))

/-! ## C4: the gaps-and-islands run-length compaction -/

/-- The numbered/grouped pair of REP_PERIOD_RESOLUTION_SQL applied to one
partition of source rows (already ordered by `time_block_start`): group by
(value, grp) and emit value, MIN(time_block_start), MAX(time_block_end). -/
def sqlCompactBlocks (rows : List SrcRow) : List (ℚ × Nat × Nat) :=
  (sqlRunPairs (fun r => r.value) (rleAnnot (fun r => r.value) rows)).map
    (fun c => (c.1, minOf 0 (fun r => r.time_block_start) c.2,
      maxOf 0 (fun r => r.time_block_end) c.2))

/-- One row per maximal run of adjacent equal-valued rows, with value,
MIN(time_block_start) and MAX(time_block_end) over the run - the
specification's description of the compaction output. -/
def runsCompactBlocks (rows : List SrcRow) : List (ℚ × Nat × Nat) :=
  (chunksBy (fun r => r.value) rows).map
    (fun c => (c.1.value, minOf 0 (fun r => r.time_block_start) (c.1 :: c.2),
      maxOf 0 (fun r => r.time_block_end) (c.1 :: c.2)))

/-- Rows with values 1, 2, 1: a partition in which the window-number
difference does not change at the second run boundary. -/
def c4Rows : List SrcRow :=
  [⟨"A", 2030, 1, 1, 1, 1⟩, ⟨"A", 2030, 1, 2, 2, 2⟩, ⟨"A", 2030, 1, 3, 3, 1⟩]

/-- C4 counterexample: for the partition with values 1, 2, 1 the
sequence-number differences are 0, 1, 1 - rows two and three lie in
different maximal runs (their values differ) yet carry the same
difference, so the difference does not change at every run boundary;
only the pair (value, difference) distinguishes the runs. -/
theorem C4_difference_equal_across_boundary :
    rleAnnot (fun r : SrcRow => r.value) c4Rows =
      [(⟨"A", 2030, 1, 1, 1, 1⟩, 0), (⟨"A", 2030, 1, 2, 2, 2⟩, 1),
       (⟨"A", 2030, 1, 3, 3, 1⟩, 1)] ∧
    (⟨"A", 2030, 1, 2, 2, 2⟩ : SrcRow).value ≠
      (⟨"A", 2030, 1, 3, 3, 1⟩ : SrcRow).value :=
  ⟨by with_unfolding_all rfl, by with_unfolding_all decide⟩

/-- C4 (amended): within a partition ordered by block start, two rows
carry the same (value, difference) pair exactly when every row between
them shares their value - the difference is constant inside a maximal
run, and equal-valued rows of different runs get different differences
(though the difference alone need not change at a run boundary); hence
grouping by (value, difference) with MIN(start)/MAX(end) produces exactly
one row per maximal run. -/
theorem C4_rle_amended (l : List SrcRow) :
    (∀ (l1 : List SrcRow) (a : SrcRow) (mid : List SrcRow) (b : SrcRow)
        (l2 : List SrcRow), l = l1 ++ a :: mid ++ b :: l2 →
      ((b.value = a.value ∧
          grpOf (fun r : SrcRow => r.value) (l1 ++ a :: mid) b =
            grpOf (fun r : SrcRow => r.value) l1 a) ↔
        (b.value = a.value ∧ ∀ x ∈ mid, x.value = a.value))) ∧
    sqlCompactBlocks l = runsCompactBlocks l := by
  constructor
  · intro l1 a mid b l2 _hdec
    constructor
    · rintro ⟨hv, hg⟩
      refine ⟨hv, ?_⟩
      simp only [grpOf_eq_cntNe] at hg
      rw [hv] at hg
      have hnat : cntNe (fun r : SrcRow => r.value) a.value (l1 ++ a :: mid) =
          cntNe (fun r : SrcRow => r.value) a.value l1 := by exact_mod_cast hg
      rw [cntNe_append] at hnat
      have hz : cntNe (fun r : SrcRow => r.value) a.value (a :: mid) = 0 := by omega
      have hall := (cntNe_eq_zero (fun r : SrcRow => r.value) a.value (a :: mid)).mp hz
      intro x hx
      exact hall x (List.mem_cons_of_mem a hx)
    · rintro ⟨hv, hmid⟩
      refine ⟨hv, ?_⟩
      simp only [grpOf_eq_cntNe]
      rw [hv]
      have hz : cntNe (fun r : SrcRow => r.value) a.value (a :: mid) = 0 := by
        refine (cntNe_eq_zero (fun r : SrcRow => r.value) a.value (a :: mid)).mpr ?_
        intro x hx
        rcases List.mem_cons.mp hx with rfl | hx
        · rfl
        · exact hmid x hx
      rw [cntNe_append, hz]
      norm_num
  · unfold sqlCompactBlocks runsCompactBlocks
    rw [sqlRunPairs_eq_chunks, List.map_map]
    rfl

/-- C4 witness: the amended characterisation applied to the concrete
partition with values 1, 2, 1 at its first two (adjacent) rows. -/
theorem C4_rle_amended_witness :
    (((⟨"A", 2030, 1, 2, 2, 2⟩ : SrcRow).value = (⟨"A", 2030, 1, 1, 1, 1⟩ : SrcRow).value ∧
        grpOf (fun r : SrcRow => r.value)
            ([] ++ (⟨"A", 2030, 1, 1, 1, 1⟩ : SrcRow) :: []) ⟨"A", 2030, 1, 2, 2, 2⟩ =
          grpOf (fun r : SrcRow => r.value) [] ⟨"A", 2030, 1, 1, 1, 1⟩) ↔
      ((⟨"A", 2030, 1, 2, 2, 2⟩ : SrcRow).value = (⟨"A", 2030, 1, 1, 1, 1⟩ : SrcRow).value ∧
        ∀ x ∈ ([] : List SrcRow), x.value = (⟨"A", 2030, 1, 1, 1, 1⟩ : SrcRow).value)) :=
  (C4_rle_amended c4Rows).1 [] ⟨"A", 2030, 1, 1, 1, 1⟩ [] ⟨"A", 2030, 1, 2, 2, 2⟩
    [⟨"A", 2030, 1, 3, 3, 1⟩] (by with_unfolding_all rfl)

/-! ## C5: maximality of the final output -/

/-- C5: for every (group, year), the final pipeline output restricted to
that key never has two adjacent segments with equal value: the closing
numbered_1/merged pass groups by (y_axis, grp) over the bins ordered by
global_start_val, and adjacent groups of that pass carry different
values. -/
theorem C5_no_adjacent_equal_values (src : List SrcRow) (qyear : Nat)
    (mapping : List MappingRow) (data : List RepDataRow) (W : ℚ) (agg : String)
    (g : String) (y : Nat) :
    List.Chain' (fun a b => a.y_axis ≠ b.y_axis)
      ((build_resolution_query src qyear mapping data W agg).filter
        (fun r => decide ((r.group, r.milestone_year) = (g, y)))) := by
  have hmk : ∀ (E : (String × Nat) × PeriodAvgRow × List PeriodAvgRow) (r : FinalRow),
      r ∈ mergedOfPartition E.1 E.2.1 E.2.2 → (r.group, r.milestone_year) = E.1 := by
    intro E r hr
    rcases List.mem_map.mp hr with ⟨c, _, rfl⟩
    rfl
  have hchain : ∀ (k : String × Nat) (h : PeriodAvgRow) (t : List PeriodAvgRow),
      List.Chain' (fun a b : FinalRow => a.y_axis ≠ b.y_axis)
        (mergedOfPartition k h t) := by
    intro k h t
    unfold mergedOfPartition
    rw [sqlRunPairs_eq_chunks, List.map_map]
    have hc := chunksBy_chain (fun r : PeriodAvgRow => r.y_axis)
      (List.insertionSort (fun a b => a.global_start_val ≤ b.global_start_val) (h :: t))
    exact List.chain'_map_of_chain' _ (fun {c d} hcd he => hcd he.symm) hc
  have hopt : ∀ (o : Option ((String × Nat) × PeriodAvgRow × List PeriodAvgRow)),
      List.Chain' (fun a b : FinalRow => a.y_axis ≠ b.y_axis)
        ((o.map (fun e => mergedOfPartition e.1 e.2.1 e.2.2)).getD []) := by
    intro o
    cases o with
    | none => simp
    | some E => simpa using hchain E.1 E.2.1 E.2.2
  unfold build_resolution_query last_part merged groupByKey
  rw [groupByKeyAux_flatMap_filter (fun r : PeriodAvgRow => (r.group, r.milestone_year))
    (fun e => mergedOfPartition e.1 e.2.1 e.2.2)
    (fun r : FinalRow => (r.group, r.milestone_year)) hmk _ _ ((g, y))]
  exact hopt _


/-! ## C6: period durations and offsets -/

theorem filter_map_comm {A B : Type} (f : A → B) (p : B → Bool) :
    ∀ (l : List A), (l.map f).filter p = (l.filter (fun x => p (f x))).map f := by
  intro l
  induction l with
  | nil => rfl
  | cons a t ih =>
    simp only [List.map_cons, List.filter_cons]
    cases hp : p (f a) with
    | true => simp [hp, ih]
    | false => simp [hp, ih]

/-- C6 (amended): the duration the offset computation uses for a
(group, year, period) is MAX(end_hour) over that key's rows - an upper
bound on, and attained by, the key's segment ends (not
resolution_hours x timestep_count, which period_durations never reads);
the offset of every row is the sum of the period_duration entries of the
same (group, year) with strictly smaller period, and each key present in
the data owns exactly one period_durations entry, so that sum counts each
smaller period exactly once. -/
theorem C6_durations_offsets_amended (fl : List RawRow) :
    (∀ pd ∈ period_durations fl,
      (∀ r ∈ fl, r.group = pd.group → r.milestone_year = pd.milestone_year →
        r.period = pd.period → r.end_hour ≤ pd.period_duration) ∧
      (∃ r ∈ fl, r.group = pd.group ∧ r.milestone_year = pd.milestone_year ∧
        r.period = pd.period ∧ pd.period_duration = r.end_hour)) ∧
    (∀ f ∈ final_with_offsets fl,
      f.offset_val = sumOf (fun d => d.period_duration)
        ((period_durations fl).filter
          (fun d => d.group == f.group && d.milestone_year == f.milestone_year &&
            decide (d.period < f.period)))) ∧
    (∀ r ∈ fl, ((period_durations fl).filter
        (fun d => decide ((d.group, d.milestone_year, d.period) =
          (r.group, r.milestone_year, r.period)))).length = 1) := by
  refine ⟨?_, ?_, ?_⟩
  · intro pd hpd
    rcases List.mem_map.mp hpd with ⟨E, hE, rfl⟩
    have hfiber := groupByKeyAux_fiber_filter
      (fun x : RawRow => (x.group, x.milestone_year, x.period)) fl.length fl
      (le_refl _) E hE
    constructor
    · intro r hr h1 h2 h3
      have hrmem : r ∈ E.2.1 :: E.2.2 := by
        rw [hfiber]
        refine List.mem_filter.mpr ⟨hr, ?_⟩
        simp only [decide_eq_true_eq]
        rw [h1, h2, h3]
      exact le_maxOf 0 (fun x => x.end_hour) (E.2.1 :: E.2.2) r hrmem
    · obtain ⟨x, hx, hmax⟩ := maxOf_mem 0 (fun x : RawRow => x.end_hour)
        (E.2.1 :: E.2.2) (by simp)
      have hxfl : x ∈ fl ∧
          (decide ((x.group, x.milestone_year, x.period) = E.1)) = true := by
        rw [hfiber] at hx
        exact List.mem_filter.mp hx
      have hkey : (x.group, x.milestone_year, x.period) = E.1 :=
        of_decide_eq_true hxfl.2
      refine ⟨x, hxfl.1, ?_, ?_, ?_, hmax⟩
      · exact congrArg (fun t : String × Nat × Nat => t.1) hkey
      · exact congrArg (fun t : String × Nat × Nat => t.2.1) hkey
      · exact congrArg (fun t : String × Nat × Nat => t.2.2) hkey
  · intro f hf
    rcases List.mem_map.mp hf with ⟨r, _, rfl⟩
    rfl
  · intro r hr
    have hcount := groupByKeyAux_count_key
      (fun x : RawRow => (x.group, x.milestone_year, x.period)) fl.length fl
      (le_refl _) r hr
    unfold period_durations groupByKey
    rw [filter_map_comm, List.length_map]
    exact hcount

/-- C6 amended witness: with one row (A, 2030, period 1, [0, 2), 20), the
key (A, 2030, 1) owns exactly one period_durations entry. -/
theorem C6_durations_offsets_amended_witness :
    ((period_durations [⟨"A", 2030, 1, 0, 2, 20⟩]).filter
      (fun d => decide ((d.group, d.milestone_year, d.period) =
        ((⟨"A", 2030, 1, 0, 2, 20⟩ : RawRow).group,
         (⟨"A", 2030, 1, 0, 2, 20⟩ : RawRow).milestone_year,
         (⟨"A", 2030, 1, 0, 2, 20⟩ : RawRow).period)))).length = 1 :=
  (C6_durations_offsets_amended [⟨"A", 2030, 1, 0, 2, 20⟩]).2.2
    ⟨"A", 2030, 1, 0, 2, 20⟩ (by simp)

/-! ## C7: hierarchical breakdown classification -/

/-- Row of the `category` table. -/
structure CategoryNode where
  id : Int
  name : String
  parent_id : Option Int
deriving DecidableEq

/-- Row of the `asset_category` table. -/
structure AssetCategoryRow where
  asset : String
  root_id : Int
  leaf_id : Int
deriving DecidableEq

/-- One expansion step of the recursive descendants CTE: add the ids of
category rows whose parent is already reached (the not-yet-reached guard
only stops re-adding ids and does not change the computed set). -/
def descendantsStep (cat : List CategoryNode) (acc : List Int) : List Int :=
  acc ++ (cat.filter (fun c =>
    (match c.parent_id with
     | some p => decide (p ∈ acc)
     | none => false) && !(decide (c.id ∈ acc)))).map (fun c => c.id)

/-- Saturating iteration of `descendantsStep`. -/
def descendantsAux (cat : List CategoryNode) : Nat → List Int → List Int
  | 0, acc => acc
  | f + 1, acc => descendantsAux cat f (descendantsStep cat acc)

/-- The recursive CTE descendants_{n} of build_breakdown_case_conditions:
the descendant-or-self closure of node `n` along reversed parent_id
links, seeded with the category rows whose id is `n` and saturated;
`cat.length` steps suffice for the acyclic hierarchies the specification
allows. -/
def descendants (cat : List CategoryNode) (node : Int) : List Int :=
  descendantsAux cat cat.length
    ((cat.filter (fun c => decide (c.id = node))).map (fun c => c.id))

/-- SQL CASE: the result of the first WHEN branch whose condition holds,
else the ELSE value. -/
def caseFirst {B : Type} : List (Bool × B) → B → B
  | [], dflt => dflt
  | (c, r) :: rest, dflt => if c then r else caseFirst rest dflt

/-- The CASE expression assembled from build_breakdown_case_conditions
and the template's ELSE branch for Other: one WHEN per grouper node, in
order, testing EXISTS(asset_category row of this asset whose leaf lies in
the node's descendants), yielding the node's category name via the LEFT
JOIN. -/
def build_breakdown_case (cat : List CategoryNode) (acat : List AssetCategoryRow)
    (grouper : List Int) (asset : String) : Option String :=
  caseFirst
    (grouper.map (fun n =>
      (acat.any (fun ac => ac.asset == asset &&
        decide (ac.leaf_id ∈ descendants cat n)),
       (cat.find? (fun c => decide (c.id = n))).map (fun c => c.name))))
    (some "Other")

theorem descendantsStep_nil (cat : List CategoryNode) :
    descendantsStep cat [] = [] := by
  unfold descendantsStep
  rw [List.filter_eq_nil_iff.mpr ?_]
  · simp
  · intro c _
    cases hc : c.parent_id <;> simp [hc]

theorem descendantsAux_nil (cat : List CategoryNode) :
    ∀ f, descendantsAux cat f [] = [] := by
  intro f
  induction f with
  | zero => rfl
  | succ m ih => simp only [descendantsAux, descendantsStep_nil]; exact ih

theorem descendants_seed (cat : List CategoryNode) (node leaf : Int) :
    leaf ∈ descendants cat node → ∃ c ∈ cat, c.id = node := by
  intro h
  by_contra hno
  push_neg at hno
  have hseed : (cat.filter (fun c => decide (c.id = node))).map
      (fun c => c.id) = ([] : List Int) := by
    rw [List.filter_eq_nil_iff.mpr ?_]
    · simp
    · intro c hc
      simp [hno c hc]
  rw [descendants, hseed, descendantsAux_nil] at h
  simp at h

theorem caseFirst_map_find {I B : Type} (p : I → Bool) (f : I → B) (dflt : B) :
    ∀ (gs : List I),
      caseFirst (gs.map (fun n => (p n, f n))) dflt = ((gs.find? p).map f).getD dflt := by
  intro gs
  induction gs with
  | nil => rfl
  | cons n t ih =>
    simp only [List.map_cons, caseFirst, List.find?]
    cases hp : p n with
    | true => simp
    | false => simpa using ih

/-- C7: for a nonempty breakdown spec, a row whose asset has the single
leaf category `leaf` is classified to the name of the first grouper node
whose descendant-or-self closure contains `leaf` (such a node always has
a category row, since the closure is seeded from the category table), and
to the literal bucket Other when no grouper node matches. -/
theorem C7_breakdown_first_match (cat : List CategoryNode)
    (acat : List AssetCategoryRow) (grouper : List Int) (asset : String)
    (leaf : Int) (_hg : grouper ≠ [])
    (hl : (acat.filter (fun ac => ac.asset == asset)).map
      (fun ac => ac.leaf_id) = [leaf]) :
    (∀ n, grouper.find? (fun n => decide (leaf ∈ descendants cat n)) = some n →
      ∃ c ∈ cat, c.id = n ∧
        build_breakdown_case cat acat grouper asset = some c.name) ∧
    (grouper.find? (fun n => decide (leaf ∈ descendants cat n)) = none →
      build_breakdown_case cat acat grouper asset = some "Other") := by
  obtain ⟨ac0, hfilter, hleaf⟩ : ∃ ac0,
      acat.filter (fun ac => ac.asset == asset) = [ac0] ∧ ac0.leaf_id = leaf := by
    cases hf : acat.filter (fun ac => ac.asset == asset) with
    | nil => rw [hf] at hl; simp at hl
    | cons x t =>
      cases t with
      | nil =>
        rw [hf] at hl
        simp only [List.map_cons, List.map_nil, List.cons.injEq, and_true] at hl
        exact ⟨x, rfl, hl⟩
      | cons x2 t2 => rw [hf] at hl; simp at hl
  have hany : ∀ n : Int,
      (acat.any (fun ac => ac.asset == asset &&
        decide (ac.leaf_id ∈ descendants cat n)))
      = decide (leaf ∈ descendants cat n) := by
    intro n
    have hm : ac0 ∈ acat ∧ (ac0.asset == asset) = true :=
      List.mem_filter.mp (by rw [hfilter]; simp)
    cases hdesc : decide (leaf ∈ descendants cat n) with
    | true =>
      rw [List.any_eq_true]
      exact ⟨ac0, hm.1, by simp [hm.2, hleaf, of_decide_eq_true hdesc]⟩
    | false =>
      rw [List.any_eq_false]
      intro ac hac hcontr
      simp only [Bool.and_eq_true, decide_eq_true_eq] at hcontr
      have hacf : ac ∈ acat.filter (fun ac => ac.asset == asset) :=
        List.mem_filter.mpr ⟨hac, hcontr.1⟩
      rw [hfilter] at hacf
      have hax : ac = ac0 := by simpa using hacf
      subst hax
      rw [hleaf] at hcontr
      exact (of_decide_eq_false hdesc) hcontr.2
  have hb : build_breakdown_case cat acat grouper asset =
      ((grouper.find? (fun n => decide (leaf ∈ descendants cat n))).map
        (fun n => (cat.find? (fun c => decide (c.id = n))).map
          (fun c => c.name))).getD (some "Other") := by
    unfold build_breakdown_case
    have hmap : grouper.map (fun n =>
        (acat.any (fun ac => ac.asset == asset &&
          decide (ac.leaf_id ∈ descendants cat n)),
         (cat.find? (fun c => decide (c.id = n))).map (fun c => c.name))) =
        grouper.map (fun n =>
          (decide (leaf ∈ descendants cat n),
           (cat.find? (fun c => decide (c.id = n))).map (fun c => c.name))) :=
      List.map_congr_left (fun n _ => by rw [hany n])
    rw [hmap, caseFirst_map_find]
  constructor
  · intro n hfind
    have hmem : leaf ∈ descendants cat n := by
      have hp := List.find?_some hfind
      simpa using hp
    obtain ⟨c0, hc0, hid⟩ := descendants_seed cat n leaf hmem
    have hsome : (cat.find? (fun c => decide (c.id = n))).isSome := by
      rw [List.find?_isSome]
      exact ⟨c0, hc0, by simp [hid]⟩
    obtain ⟨c, hc⟩ := Option.isSome_iff_exists.mp hsome
    have hcid : c.id = n := by
      have hp := List.find?_some hc
      simpa using hp
    refine ⟨c, List.mem_of_find?_eq_some hc, hcid, ?_⟩
    rw [hb, hfind]
    simp [hc]
  · intro hfind
    rw [hb, hfind]
    rfl

/-- Category table for the C7 witness: node 1 (Gen) with child node 2
(Wind). -/
def c7Cat : List CategoryNode := [⟨1, "Gen", none⟩, ⟨2, "Wind", some 1⟩]

/-- Asset-category table for the C7 witness: asset A has leaf 2. -/
def c7Acat : List AssetCategoryRow := [⟨"A", 1, 2⟩]

/-- C7 witness: asset A with leaf 2 and spec [1] is classified to the
name of node 1, whose subtree contains leaf 2. -/
theorem C7_breakdown_first_match_witness :
    ∃ c ∈ c7Cat, c.id = 1 ∧
      build_breakdown_case c7Cat c7Acat [1] "A" = some c.name :=
  (C7_breakdown_first_match c7Cat c7Acat [1] "A" 2 (by simp)
    (by with_unfolding_all rfl)).1 1 (by with_unfolding_all rfl)


end TulipaVis
